import Mathlib

/-!
# Verification of the `detach` worker's wire protocol and server loop

Shallow embedding of the two source files of the repository:

* `src/serialize.rs` — the `Command` / `Response` / `WrappedValue` codec
  (length-prefixed `VAL` framing).  This module is a library; the worker
  binary does not reference it.
* `src/bin/worker.rs` — the worker binary: its own inline
  `SocketCommand` / `SocketResponse` codec, the `AppState` store, the
  connection handler `accept_connection`, the accept loop `start_socket`,
  and the client-side `Stream` wrapper whose `Drop` removes the socket file.

Modelling conventions:

* Rust strings (`&str` / `String` / `Vec<u8>`) are byte sequences, modelled
  as `List Char` with each `Char` standing for one byte.  Rust's byte
  slicing `&s[..n]` / `&s[n..]` panics when `n` exceeds the byte length;
  a computation that can panic returns an explicit `fault` result (or
  `Option` with `none` for a panic) instead of a value.
* `usize` parsing is total on the values that can actually occur (a real
  buffer length never overflows 64 bits), so declared lengths are `Nat`.
* The `u8` request counter uses wrapping arithmetic, written explicitly
  as `% 256`.
-/

abbrev Str := List Char

/-- Rust decimal digit character: `48 + d` is the code of `'0'..'9'` for `d < 10`. -/
def digitChar (d : Nat) : Char := Char.ofNat (48 + d)

/-- Big-endian decimal digit list of `n`, fuel-structured so that it reduces
definitionally; `natToStr` always supplies enough fuel. -/
def natToStrAux : Nat → Nat → Str
  | 0, _ => []
  | _ + 1, 0 => []
  | fuel + 1, n + 1 => natToStrAux fuel ((n + 1) / 10) ++ [digitChar ((n + 1) % 10)]

/-- Decimal rendering of a `usize`, as produced by Rust's `Display` for integers. -/
def natToStr (n : Nat) : Str := if n = 0 then ['0'] else natToStrAux n n

/-- Value of a decimal digit character, `none` for a non-digit. -/
def charDigit (c : Char) : Option Nat :=
  if 48 ≤ c.toNat ∧ c.toNat ≤ 57 then some (c.toNat - 48) else none

/-- Left-to-right accumulation of decimal digits; fails on the first non-digit. -/
def parseDigitsFrom (a : Nat) : Str → Option Nat
  | [] => some a
  | c :: cs =>
    match charDigit c with
    | some d => parseDigitsFrom (a * 10 + d) cs
    | none => none

/-- Rust's `usize::from_str` (`length.parse()`): an optional leading `'+'`
followed by at least one decimal digit. -/
def parseNat : Str → Option Nat
  | [] => none
  | c :: cs =>
    if c = '+' then
      match cs with
      | [] => none
      | _ => parseDigitsFrom 0 cs
    else parseDigitsFrom 0 (c :: cs)

/-- Rust's `str::split_once(sep)`: split at the first occurrence of `sep`,
`none` when `sep` does not occur. -/
def splitOnce (sep : Char) : Str → Option (Str × Str)
  | [] => none
  | c :: cs =>
    if c = sep then some ([], cs)
    else
      match splitOnce sep cs with
      | some (l, r) => some (c :: l, r)
      | none => none

/-- True when `c` does not occur in the list. -/
def noChar (c : Char) : Str → Bool
  | [] => true
  | x :: xs => if x = c then false else noChar c xs

/-- Result of a fallible Rust computation in `serialize.rs`:
`Ok`, `Err(ParseError)`, or a panic (out-of-bounds slice). -/
inductive PResult (α : Type) where
  | ok (a : α)
  | parseError
  | fault
deriving DecidableEq

/-- Result of a fallible Rust computation in `worker.rs`:
`Ok`, `Err(io::Error)` carrying the error message, or a panic. -/
inductive WResult (α : Type) where
  | ok (a : α)
  | err (msg : String)
  | fault
deriving DecidableEq

/-! ## `src/serialize.rs` -/

/-- `WrappedValue`: an optional owned byte buffer plus an explicit length. -/
structure WrappedValue where
  buf : Option Str
  len : Nat
deriving DecidableEq

/-- `WrappedValue::empty`. -/
def WrappedValue.empty : WrappedValue := ⟨none, 0⟩

/-- `WrappedValue::from_string`. -/
def WrappedValue.from_string (s : Str) : WrappedValue := ⟨some s, s.length⟩

/-- `WrappedValue::into_inner`: slices `buf[..len]` (a panic — `none` — when
`len` exceeds the buffer length), or the empty string when there is no buffer.
UTF-8 validity of the slice is outside the byte-level model. -/
def WrappedValue.into_inner (w : WrappedValue) : Option Str :=
  match w.buf with
  | some b => if w.len ≤ b.length then some (b.take w.len) else none
  | none => some []

/-- `impl FromStr for WrappedValue`: requires at least 5 bytes and the
`"VAL "` prefix; a leading `'0'` in the remainder means the empty value;
otherwise split once on a space into the declared length and the raw bytes.
This function never panics. -/
def WrappedValue.from_str (value : Str) : PResult WrappedValue :=
  if value.length < 5 then .parseError
  else if value.take 4 ≠ "VAL ".toList then .parseError
  else
    if (value.drop 4).head? = some '0' then .ok .empty
    else
      match splitOnce ' ' (value.drop 4) with
      | some (length, rest) =>
        match parseNat length with
        | some n => .ok ⟨some rest, n⟩
        | none => .parseError
      | none => .parseError

/-- `Command` from `serialize.rs`. -/
inductive Command where
  | Get (key : Str)
  | Set (key : Str) (value : WrappedValue)
  | Delete (key : Str)
  | Dump
  | Quit
deriving DecidableEq

/-- `Response` from `serialize.rs`. -/
inductive Response where
  | Value (v : WrappedValue)
  | Err (msg : Str)
  | Ok
deriving DecidableEq

/-- `impl FromStr for Command`: dispatch on `&value[..3]` (a panic — `fault` —
when the input is shorter than 3 bytes), then take `&value[4..]` (a panic when
the input is shorter than 4 bytes) for the argument-carrying commands. -/
def Command.from_str (value : Str) : PResult Command :=
  if value.length < 3 then .fault
  else if value.take 3 = "GET".toList then
    if value.length < 4 then .fault else .ok (.Get (value.drop 4))
  else if value.take 3 = "SET".toList then
    if value.length < 4 then .fault
    else
      match splitOnce ' ' (value.drop 4) with
      | some (key, v) =>
        match WrappedValue.from_str v with
        | .ok w => .ok (.Set key w)
        | .parseError => .parseError
        | .fault => .fault
      | none => .parseError
  else if value.take 3 = "DEL".toList then
    if value.length < 4 then .fault else .ok (.Delete (value.drop 4))
  else if value.take 3 = "DMP".toList then .ok .Dump
  else if value.take 3 = "EXT".toList then .ok .Quit
  else .parseError

/-- `impl FromStr for Response`: dispatch on `&value[..2]` (a panic when the
input is shorter than 2 bytes); the `"ER"` arm takes `&value[4..]` (a panic
when the input is shorter than 4 bytes); the `"VA"` arm delegates the whole
input to the `WrappedValue` parser. -/
def Response.from_str (value : Str) : PResult Response :=
  if value.length < 2 then .fault
  else if value.take 2 = "OK".toList then .ok .Ok
  else if value.take 2 = "ER".toList then
    if value.length < 4 then .fault else .ok (.Err (value.drop 4))
  else if value.take 2 = "VA".toList then
    match WrappedValue.from_str value with
    | .ok w => .ok (.Value w)
    | .parseError => .parseError
    | .fault => .fault
  else .parseError

/-- `impl Display for WrappedValue`: `"VAL 0"` when the length is zero;
otherwise `"VAL <len> <buf[..len]>"` (the slice panics — `none` — when `len`
exceeds the buffer length), and a deliberate panic when a non-zero length has
no buffer. -/
def WrappedValue.display (w : WrappedValue) : Option Str :=
  if w.len = 0 then some ("VAL 0".toList)
  else
    match w.buf with
    | some buf =>
      if w.len ≤ buf.length then
        some ("VAL ".toList ++ natToStr w.len ++ ' ' :: buf.take w.len)
      else none
    | none => none

/-- `impl Display for Command`. -/
def Command.display : Command → Option Str
  | .Get key => some ("GET ".toList ++ key)
  | .Set key v => (v.display).map (fun vs => "SET ".toList ++ key ++ ' ' :: vs)
  | .Delete key => some ("DEL ".toList ++ key)
  | .Dump => some ("DMP".toList)
  | .Quit => some ("EXT".toList)

/-- `impl Display for Response`. -/
def Response.display : Response → Option Str
  | .Value v => v.display
  | .Err e => some ("ERR ".toList ++ e)
  | .Ok => some ("OK".toList)

/-- Extract the success value of a `PResult`. -/
def PResult.toOption : PResult α → Option α
  | .ok a => some a
  | _ => none

/-- A structurally well-formed `WrappedValue`: the spec's invariant that a
zero length has no buffer, plus the length matching the buffer. -/
def WrappedValue.validb (w : WrappedValue) : Bool :=
  match w.buf with
  | none => w.len == 0
  | some b => w.len == b.length && !b.isEmpty

/-- Keys that survive the codec's space-splitting: no space, no newline. -/
def keyOk (k : Str) : Bool := noChar ' ' k && noChar '\n' k

/-- Commands in the round-trippable fragment: keys contain neither a space
nor a newline, and a `Set` payload is a valid `WrappedValue`. -/
def Command.wf : Command → Bool
  | .Get k => keyOk k
  | .Delete k => keyOk k
  | .Set k v => keyOk k && v.validb
  | .Dump => true
  | .Quit => true

/-- Responses in the round-trippable fragment: an `Err` message contains no
newline, and a `Value` payload is a valid `WrappedValue`. -/
def Response.wf : Response → Bool
  | .Value v => v.validb
  | .Err m => noChar '\n' m
  | .Ok => true

/-! ## `src/bin/worker.rs` -/

/-- `SocketCommand`: the command set the worker actually handles.
There is no `Delete` variant. -/
inductive SocketCommand where
  | Get (key : Str)
  | Set (key : Str) (value : Str)
  | Dump
  | Quit
deriving DecidableEq

/-- `SocketResponse`: the worker's inline response type. -/
inductive SocketResponse where
  | Value (v : Option Str)
  | Err (msg : Str)
  | Ok
deriving DecidableEq

/-- `AppState`: the store.  `count` is a `u8` held as a `Nat` below 256 and
updated with explicit wrapping arithmetic; `db` is the `HashMap` as an
association list with unique keys. -/
structure AppState where
  count : Nat
  db : List (Str × Str)
  should_terminate : Bool
deriving DecidableEq

/-- `AppState::default()`. -/
def AppState.init : AppState := ⟨0, [], false⟩

/-- `HashMap::get(&key).cloned()`. -/
def dbGet (db : List (Str × Str)) (k : Str) : Option Str :=
  match db with
  | [] => none
  | (k', v) :: rest => if k' = k then some v else dbGet rest k

/-- `HashMap::insert(key, value)`: overwrite the binding if present. -/
def dbInsert (db : List (Str × Str)) (k v : Str) : List (Str × Str) :=
  match db with
  | [] => [(k, v)]
  | (k', v') :: rest => if k' = k then (k, v) :: rest else (k', v') :: dbInsert rest k v

/-- Rendering of `format!("\x7b:?\x7d", state.db)`.  The exact text is
implementation-defined (`HashMap` iteration order is unspecified), so this
is one concrete executable rendering; no claim depends on its content. -/
def dbDump (db : List (Str × Str)) : Str :=
  (db.map (fun p => p.1 ++ ": ".toList ++ p.2 ++ "; ".toList)).flatten

/-- `parse_command` from `worker.rs`: dispatch on `&res[..4]` (a panic —
`fault` — when the request line is shorter than 4 bytes).  Note the arms:
`"GET "`, `"SET "`, `"DUMP"`, `"QUIT"` — there is no `DEL` arm. -/
def parse_command (res : Str) : WResult SocketCommand :=
  if res.length < 4 then .fault
  else if res.take 4 = "GET ".toList then .ok (.Get (res.drop 4))
  else if res.take 4 = "SET ".toList then
    match splitOnce ' ' (res.drop 4) with
    | some (k, v) => .ok (.Set k v)
    | none => .err "not enough args"
  else if res.take 4 = "DUMP".toList then .ok .Dump
  else if res.take 4 = "QUIT".toList then .ok .Quit
  else .err "unrecognized command"

/-- `parse_response` from `worker.rs` (client side): dispatch on `&res[..2]`
(a panic when shorter than 2 bytes); `"ER"` takes `&res[4..]` and `"VA"`
takes `&res[6..]` (panics when the input is shorter than the offset). -/
def parse_response (res : Str) : WResult SocketResponse :=
  if res.length < 2 then .fault
  else if res.take 2 = "OK".toList then .ok .Ok
  else if res.take 2 = "ER".toList then
    if res.length < 4 then .fault else .ok (.Err (res.drop 4))
  else if res.take 2 = "VA".toList then
    if res.length < 6 then .fault else .ok (.Value (some (res.drop 6)))
  else .err "unrecognized command"

/-- `impl Display for SocketCommand`. -/
def SocketCommand.display : SocketCommand → Str
  | .Get key => "GET ".toList ++ key
  | .Set key value => "SET ".toList ++ key ++ ' ' :: value
  | .Dump => "DUMP".toList
  | .Quit => "QUIT".toList

/-- `impl Display for SocketResponse`: `VALUE <v>` / `VALUE <null>` /
`ERR <msg>` / `OK` — not the `VAL`-framed encoding of `serialize.rs`. -/
def SocketResponse.display : SocketResponse → Str
  | .Value (some v) => "VALUE ".toList ++ v
  | .Value none => "VALUE <null>".toList
  | .Err e => "ERR ".toList ++ e
  | .Ok => "OK".toList

/-- The `match` in `accept_connection` that mutates the state and picks the
response for a parsed command. -/
def runCommand (st : AppState) : SocketCommand → AppState × SocketResponse
  | .Get key => (st, .Value (dbGet st.db key))
  | .Set key value => ({ st with db := dbInsert st.db key value }, .Ok)
  | .Dump => (st, .Value (some (dbDump st.db)))
  | .Quit => ({ st with should_terminate := true }, .Ok)

/-- `accept_connection`: parse the request line (already newline-stripped by
`read_line` + `pop`), apply the command, write back `format!("\x7b\x7d\n", res)`,
then `state.count += 1` (u8 wrapping, release semantics — the spec's §3
"wraps on overflow").  A parse error propagates through `?`, dropping the
connection with no reply and no counter increment.  Returns the new state
and the bytes written to the peer. -/
def accept_connection (st : AppState) (req : Str) : WResult (AppState × Str) :=
  match parse_command req with
  | .err e => .err e
  | .fault => .fault
  | .ok cmd =>
    let p := runCommand st cmd
    .ok ({ p.1 with count := (p.1.count + 1) % 256 }, p.2.display ++ ['\n'])

/-- One accept-loop iteration's input: a connection whose request line was
read successfully, a connection whose `read_line` failed with an I/O error,
or a failed `listener.accept()`. -/
inductive AcceptEvent where
  | conn (req : Str)
  | readErr (msg : String)
  | acceptErr
deriving DecidableEq

/-- How a run of the `start_socket` loop ended. -/
inductive LoopOutcome where
  | terminated
  | failed (msg : String)
  | crashed
  | listening
deriving DecidableEq

/-- The `loop` in `start_socket`, driven by a finite schedule of accept
events.  On `acceptErr` the error is logged and the iteration ends (the
termination flag is still checked); on a connection, `accept_connection`'s
error propagates through `?`, ending the whole loop; after a successful
handling the termination flag is checked and the loop breaks if it is set.
`listening` means the schedule ran out while the loop was still accepting.
Returns the frames written to peers and the outcome. -/
def serverLoop (st : AppState) : List AcceptEvent → List Str × LoopOutcome
  | [] => ([], .listening)
  | .acceptErr :: rest =>
    if st.should_terminate then ([], .terminated) else serverLoop st rest
  | .readErr msg :: _ => ([], .failed msg)
  | .conn req :: rest =>
    match accept_connection st req with
    | .err msg => ([], .failed msg)
    | .fault => ([], .crashed)
    | .ok (st1, out) =>
      if st1.should_terminate then ([out], .terminated)
      else (out :: (serverLoop st1 rest).1, (serverLoop st1 rest).2)

/-- Result of running `start_socket` under a schedule of accept events:
the frames written, the loop outcome, and whether the socket file
`/tmp/detach.sock` still exists when `start_socket` returns. -/
structure ServerRun where
  writes : List Str
  outcome : LoopOutcome
  socketFileExists : Bool
deriving DecidableEq

/-- `start_socket`: `UnixListener::bind(SOCKET)` creates the socket file
(and `.expect` panics — `none` — if binding fails, e.g. the file already
exists), then the accept loop runs on `AppState::default()`.  The function
contains no `remove_file`, and dropping a `std` `UnixListener` closes the
descriptor without unlinking the path, so the socket file still exists on
every return path. -/
def start_socket (sockExists : Bool) (events : List AcceptEvent) : Option ServerRun :=
  if sockExists then none
  else
    let r := serverLoop AppState.init events
    some ⟨r.1, r.2, true⟩

/-- Socket-file existence after one client invocation (`command` in
`worker.rs`).  If the socket file is absent, `UnixStream::connect` fails
before the `Stream` wrapper is constructed, so nothing is dropped and the
file stays absent.  If it is present, the `Stream` wrapper is constructed
and its `Drop` impl runs `std::fs::remove_file(SOCKET)` when the call ends
(on the success path and on every `?` early return alike), so the file is
gone afterwards. -/
def clientCommandSocketAfter (sockExists : Bool) : Bool :=
  if sockExists then false else sockExists

/-! ## Helper lemmas: decimal rendering and parsing -/

theorem charDigit_digitChar (d : Nat) (h : d < 10) : charDigit (digitChar d) = some d := by
  interval_cases d <;> decide

theorem digitChar_ne_space (d : Nat) (h : d < 10) : digitChar d ≠ ' ' := by
  interval_cases d <;> decide

theorem digitChar_ne_plus (d : Nat) (h : d < 10) : digitChar d ≠ '+' := by
  interval_cases d <;> decide

theorem digitChar_ne_zero (d : Nat) (h : d < 10) (h0 : d ≠ 0) : digitChar d ≠ '0' := by
  interval_cases d <;> first | omega | decide

theorem natToStrAux_zero (f : Nat) : natToStrAux f 0 = [] := by
  cases f <;> rfl

theorem natToStrAux_chars :
    ∀ f n c, c ∈ natToStrAux f n → ∃ d, d < 10 ∧ c = digitChar d := by
  intro f
  induction f with
  | zero => intro n c hc; simp [natToStrAux] at hc
  | succ f ih =>
    intro n c hc
    cases n with
    | zero => simp [natToStrAux] at hc
    | succ m =>
      simp only [natToStrAux, List.mem_append, List.mem_singleton] at hc
      rcases hc with hc | hc
      · exact ih _ _ hc
      · exact ⟨(m + 1) % 10, Nat.mod_lt _ (by omega), hc⟩

theorem natToStrAux_head :
    ∀ f n, 0 < n → n ≤ f → ∃ c cs, natToStrAux f n = c :: cs ∧ c ≠ '0' ∧ c ≠ '+' := by
  intro f
  induction f with
  | zero => intro n hn hf; omega
  | succ f ih =>
    intro n hn hf
    cases n with
    | zero => omega
    | succ m =>
      have hq : (m + 1) / 10 ≤ f := by
        have := Nat.div_lt_self (show 0 < m + 1 by omega) (show 1 < 10 by omega)
        omega
      by_cases h0 : (m + 1) / 10 = 0
      · have hr : (m + 1) % 10 = m + 1 := by omega
        refine ⟨digitChar ((m + 1) % 10), [], ?_, ?_, ?_⟩
        · simp [natToStrAux, h0, natToStrAux_zero]
        · exact digitChar_ne_zero _ (Nat.mod_lt _ (by omega)) (by omega)
        · exact digitChar_ne_plus _ (Nat.mod_lt _ (by omega))
      · obtain ⟨c, cs, he, hc0, hcp⟩ := ih ((m + 1) / 10) (by omega) hq
        exact ⟨c, cs ++ [digitChar ((m + 1) % 10)], by simp [natToStrAux, he], hc0, hcp⟩

theorem parseDigitsFrom_natToStrAux :
    ∀ f n a rest, n ≤ f →
      parseDigitsFrom a (natToStrAux f n ++ rest)
        = parseDigitsFrom (a * 10 ^ (natToStrAux f n).length + n) rest := by
  intro f
  induction f with
  | zero =>
    intro n a rest hf
    have : n = 0 := by omega
    subst this
    simp [natToStrAux]
  | succ f ih =>
    intro n a rest hf
    cases n with
    | zero => simp [natToStrAux]
    | succ m =>
      have hq : (m + 1) / 10 ≤ f := by
        have := Nat.div_lt_self (show 0 < m + 1 by omega) (show 1 < 10 by omega)
        omega
      have hr : (m + 1) % 10 < 10 := Nat.mod_lt _ (by omega)
      simp only [natToStrAux, List.append_assoc, List.singleton_append]
      rw [ih _ a _ hq]
      simp only [parseDigitsFrom, charDigit_digitChar _ hr]
      congr 1
      rw [List.length_append, List.length_singleton]
      have hdm : 10 * ((m + 1) / 10) + (m + 1) % 10 = m + 1 := Nat.div_add_mod _ _
      calc (a * 10 ^ List.length (natToStrAux f ((m + 1) / 10)) + (m + 1) / 10) * 10 + (m + 1) % 10
          = a * (10 ^ List.length (natToStrAux f ((m + 1) / 10)) * 10)
              + (10 * ((m + 1) / 10) + (m + 1) % 10) := by ring
        _ = a * 10 ^ (List.length (natToStrAux f ((m + 1) / 10)) + 1) + (m + 1) := by
            rw [hdm, ← pow_succ]

theorem natToStr_head (n : Nat) (h : 0 < n) :
    ∃ c cs, natToStr n = c :: cs ∧ c ≠ '0' ∧ c ≠ '+' := by
  unfold natToStr
  rw [if_neg (by omega)]
  exact natToStrAux_head n n h le_rfl

theorem noChar_of_forall {c : Char} : ∀ {l : Str}, (∀ x ∈ l, x ≠ c) → noChar c l = true := by
  intro l
  induction l with
  | nil => intro; rfl
  | cons x xs ih =>
    intro h
    simp only [noChar]
    rw [if_neg (h x (by simp))]
    exact ih (fun y hy => h y (by simp [hy]))

theorem noChar_space_natToStr (n : Nat) : noChar ' ' (natToStr n) = true := by
  unfold natToStr
  by_cases h : n = 0
  · rw [if_pos h]; decide
  · rw [if_neg h]
    refine noChar_of_forall (fun x hx => ?_)
    obtain ⟨d, hd, rfl⟩ := natToStrAux_chars n n x hx
    exact digitChar_ne_space d hd

theorem splitOnce_append (sep : Char) :
    ∀ l r : Str, noChar sep l = true → splitOnce sep (l ++ sep :: r) = some (l, r) := by
  intro l
  induction l with
  | nil =>
    intro r _
    simp [splitOnce]
  | cons c cs ih =>
    intro r h
    simp only [noChar] at h
    by_cases hc : c = sep
    · rw [if_pos hc] at h; exact absurd h (by simp)
    · rw [if_neg hc] at h
      simp only [List.cons_append, splitOnce, List.append_eq]
      rw [if_neg hc, ih r h]

theorem parseNat_natToStr (n : Nat) (h : 0 < n) : parseNat (natToStr n) = some n := by
  obtain ⟨c, cs, he, hc0, hcp⟩ := natToStr_head n h
  rw [he]
  simp only [parseNat]
  rw [if_neg hcp, ← he]
  unfold natToStr
  rw [if_neg (by omega)]
  have := parseDigitsFrom_natToStrAux n n 0 [] le_rfl
  rw [List.append_nil] at this
  rw [this]
  simp [parseDigitsFrom]

/-! ## Helper lemmas: `WrappedValue` codec round trip -/

theorem wv_display_buf (b : Str) (hb : b ≠ []) :
    WrappedValue.display ⟨some b, b.length⟩ =
      some ("VAL ".toList ++ natToStr b.length ++ ' ' :: b) := by
  unfold WrappedValue.display
  rw [if_neg (by simpa using hb)]
  simp [List.take_length]

theorem wv_from_str_encoding (n : Nat) (hn : 0 < n) (b : Str) :
    WrappedValue.from_str ("VAL ".toList ++ (natToStr n ++ ' ' :: b)) = .ok ⟨some b, n⟩ := by
  obtain ⟨c, cs, he, hc0, _⟩ := natToStr_head n hn
  have hlen : ("VAL ".toList ++ (natToStr n ++ ' ' :: b)).length
      = 4 + (natToStr n).length + 1 + b.length := by
    simp [List.length_append]
    omega
  have hntriv : (natToStr n).length ≥ 1 := by rw [he]; simp
  unfold WrappedValue.from_str
  rw [if_neg (by omega)]
  rw [List.take_left' (by rfl), List.drop_left' (by rfl)]
  rw [if_neg (by simp)]
  rw [if_neg (by rw [he]; simp [hc0])]
  rw [splitOnce_append ' ' (natToStr n) b (noChar_space_natToStr n)]
  simp [parseNat_natToStr n hn]

theorem wv_roundtrip (w : WrappedValue) (h : w.validb = true) :
    w.display.map WrappedValue.from_str = some (.ok w) := by
  obtain ⟨buf, len⟩ := w
  cases buf with
  | none =>
    have : len = 0 := by simpa [WrappedValue.validb] using h
    subst this
    decide
  | some b =>
    have hb : len = b.length ∧ b ≠ [] := by
      simpa [WrappedValue.validb] using h
    obtain ⟨rfl, hbne⟩ := hb
    rw [wv_display_buf b hbne]
    have hb0 : 0 < b.length := by
      cases b with
      | nil => exact absurd rfl hbne
      | cons x xs => simp
    exact congrArg some (wv_from_str_encoding b.length hb0 b)

/-! ## Helper lemmas: `Command` / `Response` codec round trip -/

theorem cmd_from_str_get (key : Str) :
    Command.from_str ("GET ".toList ++ key) = .ok (.Get key) := by
  have h4 : ("GET ".toList ++ key).length = 4 + key.length := by simp; omega
  unfold Command.from_str
  rw [if_neg (by omega)]
  rw [show List.take 3 ("GET ".toList ++ key) = "GET".toList from rfl]
  rw [if_pos rfl]
  rw [if_neg (by omega)]
  rw [List.drop_left' (show ("GET ".toList).length = 4 from rfl)]

theorem cmd_from_str_del (key : Str) :
    Command.from_str ("DEL ".toList ++ key) = .ok (.Delete key) := by
  have h4 : ("DEL ".toList ++ key).length = 4 + key.length := by simp; omega
  unfold Command.from_str
  rw [if_neg (by omega)]
  rw [show List.take 3 ("DEL ".toList ++ key) = "DEL".toList from rfl]
  rw [if_neg (by decide), if_neg (by decide), if_pos rfl]
  rw [if_neg (by omega)]
  rw [List.drop_left' (show ("DEL ".toList).length = 4 from rfl)]

theorem cmd_from_str_set (key vs : Str) (w : WrappedValue) (hk : noChar ' ' key = true)
    (hv : WrappedValue.from_str vs = .ok w) :
    Command.from_str ("SET ".toList ++ key ++ ' ' :: vs) = .ok (.Set key w) := by
  have h4 : ("SET ".toList ++ key ++ ' ' :: vs).length = 4 + key.length + 1 + vs.length := by
    simp; omega
  unfold Command.from_str
  rw [if_neg (by omega)]
  rw [show List.take 3 ("SET ".toList ++ key ++ ' ' :: vs) = "SET".toList from rfl]
  rw [if_neg (by decide), if_pos rfl]
  rw [if_neg (by omega)]
  rw [show List.drop 4 ("SET ".toList ++ key ++ ' ' :: vs) = key ++ ' ' :: vs from rfl]
  rw [splitOnce_append ' ' key vs hk]
  simp [hv]

theorem cmd_roundtrip (c : Command) (h : c.wf = true) :
    c.display.map Command.from_str = some (.ok c) := by
  cases c with
  | Get key => exact congrArg some (cmd_from_str_get key)
  | Delete key => exact congrArg some (cmd_from_str_del key)
  | Dump => decide
  | Quit => decide
  | Set key v =>
    have hwf : keyOk key = true ∧ v.validb = true := by
      simpa [Command.wf] using h
    have hrt := wv_roundtrip v hwf.2
    cases hd : v.display with
    | none => rw [hd] at hrt; simp at hrt
    | some vs =>
      rw [hd] at hrt
      have hv : WrappedValue.from_str vs = .ok v := by
        simpa using hrt
      have hk : noChar ' ' key = true := by
        have h1 := hwf.1
        simp [keyOk] at h1
        exact h1.1
      simp only [Command.display, hd, Option.map_some]
      exact congrArg some (cmd_from_str_set key vs v hk hv)

theorem resp_from_str_err (msg : Str) :
    Response.from_str ("ERR ".toList ++ msg) = .ok (.Err msg) := by
  have h4 : ("ERR ".toList ++ msg).length = 4 + msg.length := by simp; omega
  unfold Response.from_str
  rw [if_neg (by omega)]
  rw [show List.take 2 ("ERR ".toList ++ msg) = "ER".toList from rfl]
  rw [if_neg (by decide), if_pos rfl]
  rw [if_neg (by omega)]
  rw [show List.drop 4 ("ERR ".toList ++ msg) = msg from rfl]

theorem resp_from_str_val (n : Nat) (hn : 0 < n) (b : Str) :
    Response.from_str ("VAL ".toList ++ (natToStr n ++ ' ' :: b))
      = .ok (.Value ⟨some b, n⟩) := by
  have h4 : ("VAL ".toList ++ (natToStr n ++ ' ' :: b)).length
      = 4 + (natToStr n).length + 1 + b.length := by
    simp; omega
  unfold Response.from_str
  rw [if_neg (by omega)]
  rw [show List.take 2 ("VAL ".toList ++ (natToStr n ++ ' ' :: b)) = "VA".toList from rfl]
  rw [if_neg (by decide), if_neg (by decide), if_pos rfl]
  rw [wv_from_str_encoding n hn b]

theorem resp_roundtrip (r : Response) (h : r.wf = true) :
    r.display.map Response.from_str = some (.ok r) := by
  cases r with
  | Ok => decide
  | Err msg => exact congrArg some (resp_from_str_err msg)
  | Value v =>
    obtain ⟨buf, len⟩ := v
    cases buf with
    | none =>
      have : len = 0 := by simpa [Response.wf, WrappedValue.validb] using h
      subst this
      decide
    | some b =>
      have hb : len = b.length ∧ b ≠ [] := by
        simpa [Response.wf, WrappedValue.validb] using h
      obtain ⟨rfl, hbne⟩ := hb
      have hb0 : 0 < b.length := by
        cases b with
        | nil => exact absurd rfl hbne
        | cons x xs => simp
      simp only [Response.display]
      rw [wv_display_buf b hbne]
      exact congrArg some (resp_from_str_val b.length hb0 b)

/-! ## Worker parse lemmas -/

theorem parse_command_get (key : Str) :
    parse_command ("GET ".toList ++ key) = .ok (.Get key) := by
  have h4 : ("GET ".toList ++ key).length = 4 + key.length := by simp; omega
  unfold parse_command
  rw [if_neg (by omega)]
  rw [show List.take 4 ("GET ".toList ++ key) = "GET ".toList from rfl]
  rw [if_pos rfl]
  rw [show List.drop 4 ("GET ".toList ++ key) = key from rfl]

theorem parse_command_del (key : Str) :
    parse_command ("DEL ".toList ++ key) = .err "unrecognized command" := by
  have h4 : ("DEL ".toList ++ key).length = 4 + key.length := by simp; omega
  unfold parse_command
  rw [if_neg (by omega)]
  rw [show List.take 4 ("DEL ".toList ++ key) = "DEL ".toList from rfl]
  rw [if_neg (by decide), if_neg (by decide), if_neg (by decide), if_neg (by decide)]

theorem wv_from_str_ne_fault (t : Str) : WrappedValue.from_str t ≠ .fault := by
  unfold WrappedValue.from_str
  split_ifs <;> try (intro hx; exact PResult.noConfusion hx)
  split
  · split <;> (intro hx; exact PResult.noConfusion hx)
  · intro hx; exact PResult.noConfusion hx

/-! ## Claim theorems -/

/-- C1, counterexample: the claim quantifies over every `Response` whose
`Err` message has no newline, but a `Value` response carrying a length-1
view of a 2-byte buffer encodes as `VAL 1 a` and decodes to a different
response, so the round trip fails without a validity condition on the
`Value` payload. -/
theorem c1_counterexample :
    (Response.display (.Value ⟨some "ab".toList, 1⟩)).map Response.from_str
      ≠ some (.ok (.Value ⟨some "ab".toList, 1⟩)) := by decide

/-- C1 (amended): for every `Command` whose keys contain neither a space nor
a newline and whose `Set` payload is a valid `WrappedValue`, and for every
`Response` whose `Err` message contains no newline and whose `Value` payload
is a valid `WrappedValue`, the `Display` encoding parses back (`from_str`)
to the original value. -/
theorem c1_roundtrip :
    (∀ c : Command, c.wf = true → c.display.map Command.from_str = some (.ok c)) ∧
    (∀ r : Response, r.wf = true → r.display.map Response.from_str = some (.ok r)) :=
  ⟨cmd_roundtrip, resp_roundtrip⟩

/-- C1 witness: the round trip evaluated on a concrete command and response. -/
theorem c1_roundtrip_witness :
    ((Command.Set "k".toList ⟨some "hello".toList, 5⟩).wf = true ∧
      (Command.Set "k".toList ⟨some "hello".toList, 5⟩).display.map Command.from_str
        = some (.ok (.Set "k".toList ⟨some "hello".toList, 5⟩))) ∧
    ((Response.Value ⟨some "hi".toList, 2⟩).wf = true ∧
      (Response.Value ⟨some "hi".toList, 2⟩).display.map Response.from_str
        = some (.ok (.Value ⟨some "hi".toList, 2⟩))) :=
  ⟨⟨by decide, c1_roundtrip.1 _ (by decide)⟩, ⟨by decide, c1_roundtrip.2 _ (by decide)⟩⟩

/-- C2: for every payload `b` (newline bytes included), `Display`-encoding
`WrappedValue::from_string(b)` and then decoding with
`WrappedValue::from_str` succeeds, and `into_inner` of the result is `b`,
provided the encoded string reaches the decoder intact. -/
theorem c2_value_roundtrip (b : Str) :
    ((WrappedValue.from_string b).display.bind
        (fun s => (WrappedValue.from_str s).toOption)).bind WrappedValue.into_inner
      = some b := by
  cases b with
  | nil => decide
  | cons x xs =>
    have hbne : (x :: xs : Str) ≠ [] := by simp
    have hb0 : 0 < (x :: xs : Str).length := by simp
    show ((WrappedValue.display ⟨some (x :: xs), (x :: xs : Str).length⟩).bind _).bind _ = _
    rw [wv_display_buf _ hbne]
    show ((WrappedValue.from_str _).toOption).bind _ = _
    have henc : WrappedValue.from_str
        ("VAL ".toList ++ natToStr (x :: xs : Str).length ++ ' ' :: x :: xs)
        = .ok ⟨some (x :: xs), (x :: xs : Str).length⟩ :=
      wv_from_str_encoding _ hb0 _
    rw [henc]
    show WrappedValue.into_inner ⟨some (x :: xs), (x :: xs : Str).length⟩ = _
    unfold WrappedValue.into_inner
    simp

/-- C2 witness: the value round trip evaluated on a payload containing an
embedded newline byte. -/
theorem c2_value_roundtrip_witness :
    (((WrappedValue.from_string "a\nb".toList).display.bind
        (fun s => (WrappedValue.from_str s).toOption)).bind WrappedValue.into_inner)
      = some "a\nb".toList :=
  c2_value_roundtrip "a\nb".toList

/-- C3, counterexample: inputs shorter than the sliced prefix panic with an
out-of-bounds slice (`fault`) instead of returning `ParseError`: a 2-byte
`Command` input, a 3-byte `GET` frame with no byte at offset 4, a 1-byte
`Response` input, and a 3-byte `ERR` frame. -/
theorem c3_counterexample :
    Command.from_str "GE".toList = .fault ∧
    Command.from_str "GET".toList = .fault ∧
    Response.from_str "E".toList = .fault ∧
    Response.from_str "ERR".toList = .fault := by decide

/-- C3 (amended): on inputs of at least 4 bytes, `Command::from_str` and
`Response::from_str` are total, returning `Ok` or `ParseError` and never
hitting an out-of-bounds slice; shorter inputs can panic. -/
theorem c3_total (s : Str) (h : 4 ≤ s.length) :
    Command.from_str s ≠ .fault ∧ Response.from_str s ≠ .fault := by
  constructor
  · unfold Command.from_str
    split_ifs <;> try omega
    all_goals try (intro hx; exact PResult.noConfusion hx)
    cases hsp : splitOnce ' ' (List.drop 4 s) with
    | none => intro hx; exact PResult.noConfusion hx
    | some kv =>
      obtain ⟨k, v⟩ := kv
      show (match WrappedValue.from_str v with
        | PResult.ok w => PResult.ok (Command.Set k w)
        | PResult.parseError => PResult.parseError
        | PResult.fault => PResult.fault) ≠ PResult.fault
      cases hwv : WrappedValue.from_str v with
      | ok w => intro hx; exact PResult.noConfusion hx
      | parseError => intro hx; exact PResult.noConfusion hx
      | fault => exact absurd hwv (wv_from_str_ne_fault v)
  · unfold Response.from_str
    split_ifs <;> try omega
    all_goals try (intro hx; exact PResult.noConfusion hx)
    cases hwv : WrappedValue.from_str s with
    | ok w => intro hx; exact PResult.noConfusion hx
    | parseError => intro hx; exact PResult.noConfusion hx
    | fault => exact absurd hwv (wv_from_str_ne_fault s)

/-- C3 witness: the amended totality evaluated on a concrete 5-byte input. -/
theorem c3_total_witness :
    4 ≤ ("GET k".toList : Str).length ∧
    (Command.from_str "GET k".toList ≠ .fault ∧ Response.from_str "GET k".toList ≠ .fault) :=
  ⟨by decide, c3_total "GET k".toList (by decide)⟩

/-- C4, counterexample: on `GET k` with `k` bound to `hello` the worker
writes `VALUE hello\n` — not the `VAL 5 hello` encoding the claim states —
and on an absent key it writes `VALUE <null>\n`, not `VAL 0`. -/
theorem c4_counterexample :
    accept_connection ⟨0, [("k".toList, "hello".toList)], false⟩ "GET k".toList
      = .ok (⟨1, [("k".toList, "hello".toList)], false⟩, "VALUE hello\n".toList) ∧
    "VALUE hello\n".toList ≠ "VAL 5 hello\n".toList ∧
    accept_connection AppState.init "GET k".toList
      = .ok (⟨1, [], false⟩, "VALUE <null>\n".toList) ∧
    "VALUE <null>\n".toList ≠ "VAL 0\n".toList := by decide

/-- C4 (amended): for every `Get`, the connection handler replies on the
wire with `VALUE <bytes>\n` when the key is present and `VALUE <null>\n`
when it is absent (the worker's own `SocketResponse` encoding, not the
`WrappedValue` `VAL` framing of the serialize module). -/
theorem c4_get_reply :
    (∀ (st : AppState) (key v : Str), dbGet st.db key = some v →
      accept_connection st ("GET ".toList ++ key)
        = .ok ({ st with count := (st.count + 1) % 256 },
               "VALUE ".toList ++ v ++ ['\n'])) ∧
    (∀ (st : AppState) (key : Str), dbGet st.db key = none →
      accept_connection st ("GET ".toList ++ key)
        = .ok ({ st with count := (st.count + 1) % 256 },
               "VALUE <null>".toList ++ ['\n'])) := by
  constructor
  · intro st key v h
    unfold accept_connection
    rw [parse_command_get]
    simp [runCommand, SocketResponse.display, h]
  · intro st key h
    unfold accept_connection
    rw [parse_command_get]
    simp [runCommand, SocketResponse.display, h]

/-- C4 witness: the amended reply shapes evaluated on concrete stores. -/
theorem c4_get_reply_witness :
    (dbGet [("k".toList, "hello".toList)] "k".toList = some "hello".toList ∧
      accept_connection ⟨7, [("k".toList, "hello".toList)], false⟩ ("GET ".toList ++ "k".toList)
        = .ok (⟨8, [("k".toList, "hello".toList)], false⟩,
               "VALUE ".toList ++ "hello".toList ++ ['\n'])) ∧
    (dbGet [] "k".toList = none ∧
      accept_connection AppState.init ("GET ".toList ++ "k".toList)
        = .ok (⟨1, [], false⟩, "VALUE <null>".toList ++ ['\n'])) :=
  ⟨⟨by decide, c4_get_reply.1 _ _ _ (by decide)⟩, ⟨by decide, c4_get_reply.2 _ _ (by decide)⟩⟩

/-- C5, counterexample: the worker cannot process a Delete at all — a
`DEL a` request is rejected as an unrecognized command even when the key is
present, the connection is dropped with no `Ok` reply, and the store keeps
the binding. -/
theorem c5_counterexample :
    accept_connection ⟨0, [("a".toList, "1".toList)], false⟩ "DEL a".toList
      = .err "unrecognized command" := by decide

/-- C5 (amended): the server does not process Delete: `SocketCommand` has no
Delete variant and every `DEL <key>` request fails to parse with
"unrecognized command", so the connection is dropped without a reply and the
store is unchanged.  (Only the unused serialize module has a `Delete`.) -/
theorem c5_no_delete (st : AppState) (key : Str) :
    accept_connection st ("DEL ".toList ++ key) = .err "unrecognized command" := by
  unfold accept_connection
  rw [parse_command_del]

/-- C5 witness: the amended rejection evaluated on a concrete store. -/
theorem c5_no_delete_witness :
    accept_connection ⟨3, [("a".toList, "1".toList)], false⟩ ("DEL ".toList ++ "x".toList)
      = .err "unrecognized command" :=
  c5_no_delete ⟨3, [("a".toList, "1".toList)], false⟩ "x".toList

/-- C6: handling a `QUIT` connection writes the `OK` reply for that same
connection (the write happens inside `accept_connection`, before the loop
inspects the termination flag), and the loop then terminates without
processing any later accept event. -/
theorem c6_quit (st : AppState) (rest : List AcceptEvent) :
    serverLoop st (.conn "QUIT".toList :: rest) = (["OK\n".toList], .terminated) := rfl

/-- C6 witness: the quit behaviour evaluated on a concrete state and a
non-empty schedule of later events. -/
theorem c6_quit_witness :
    serverLoop ⟨5, [("k".toList, "v".toList)], false⟩
        [.conn "QUIT".toList, .conn "GET k".toList, .acceptErr]
      = (["OK\n".toList], .terminated) :=
  c6_quit ⟨5, [("k".toList, "v".toList)], false⟩ [.conn "GET k".toList, .acceptErr]

/-- C7, counterexample: a parse failure on one accepted connection does not
leave the server accepting — the error propagates out of the loop, the run
ends as `failed`, and the following connection is never processed. -/
theorem c7_counterexample :
    serverLoop AppState.init [.conn "BOGUS".toList, .conn "GET k".toList]
      = ([], .failed "unrecognized command") := by decide

/-- C7 (amended): a failure of `listener.accept()` terminates only that
iteration and the loop keeps accepting; but a parse failure (or an I/O
failure reading the request) while handling an accepted connection
propagates out of `start_socket`, terminating the whole server loop, so
subsequent peers are not accepted. -/
theorem c7_amended :
    (∀ (st : AppState) (rest : List AcceptEvent), st.should_terminate = false →
      serverLoop st (.acceptErr :: rest) = serverLoop st rest) ∧
    (∀ (st : AppState) (req : Str) (rest : List AcceptEvent) (msg : String),
      accept_connection st req = .err msg →
      serverLoop st (.conn req :: rest) = ([], .failed msg)) ∧
    (∀ (st : AppState) (msg : String) (rest : List AcceptEvent),
      serverLoop st (.readErr msg :: rest) = ([], .failed msg)) := by
  refine ⟨?_, ?_, ?_⟩
  · intro st rest h
    simp [serverLoop, h]
  · intro st req rest msg h
    simp [serverLoop, h]
  · intro st msg rest
    rfl

/-- C7 witness: the amended loop behaviour evaluated on concrete schedules. -/
theorem c7_amended_witness :
    ((AppState.init.should_terminate = false ∧
      serverLoop AppState.init [.acceptErr, .conn "QUIT".toList]
        = serverLoop AppState.init [.conn "QUIT".toList])) ∧
    (accept_connection AppState.init "BOGUS".toList = .err "unrecognized command" ∧
      serverLoop AppState.init [.conn "BOGUS".toList, .acceptErr]
        = ([], .failed "unrecognized command")) ∧
    serverLoop AppState.init [.readErr "broken pipe", .conn "QUIT".toList]
      = ([], .failed "broken pipe") :=
  ⟨⟨by decide, c7_amended.1 _ _ (by decide)⟩,
   ⟨by decide, c7_amended.2.1 _ _ _ _ (by decide)⟩,
   c7_amended.2.2 AppState.init "broken pipe" [.conn "QUIT".toList]⟩

/-- C8, counterexample: the server terminates normally via Quit and the
socket file still exists — `start_socket` has released nothing — while a
single client call (another party) leaves the file removed. -/
theorem c8_counterexample :
    start_socket false [.conn "QUIT".toList]
      = some ⟨["OK\n".toList], .terminated, true⟩ ∧
    clientCommandSocketAfter true = false := by decide

/-- C8 (amended): the socket file is never removed by the server — on every
run of `start_socket` that binds successfully the file still exists when the
loop returns, whatever the outcome — and it is the client's `Stream` wrapper
whose `Drop` removes the file, once per client invocation. -/
theorem c8_socket_release :
    (∀ events : List AcceptEvent,
      (start_socket false events).map ServerRun.socketFileExists = some true) ∧
    (∀ b : Bool, clientCommandSocketAfter b = false) := by
  constructor
  · intro events
    rfl
  · intro b
    cases b <;> rfl

/-- C8 witness: the amended resource behaviour evaluated on a concrete
schedule and both client preconditions. -/
theorem c8_socket_release_witness :
    (start_socket false [.conn "QUIT".toList, .acceptErr]).map ServerRun.socketFileExists
      = some true ∧
    clientCommandSocketAfter false = false :=
  ⟨c8_socket_release.1 [.conn "QUIT".toList, .acceptErr], c8_socket_release.2 false⟩

/-- C9, counterexample: with the counter at its u8 maximum 255, processing
one more command wraps it to 0 — it does not saturate at 255. -/
theorem c9_counterexample :
    accept_connection ⟨255, [], false⟩ "QUIT".toList
      = .ok (⟨0, [], true⟩, "OK\n".toList) ∧
    (0 : Nat) ≠ 255 := by decide

/-- C9 (amended): every successfully processed command sets the request
counter to exactly `(old + 1) % 256` — an increment by one that wraps to 0
at the u8 maximum instead of saturating (or panicking). -/
theorem c9_count (st : AppState) (req : Str) (st' : AppState) (out : Str)
    (h : accept_connection st req = .ok (st', out)) :
    st'.count = (st.count + 1) % 256 := by
  unfold accept_connection at h
  cases hp : parse_command req with
  | err e => rw [hp] at h; exact absurd h (by simp)
  | fault => rw [hp] at h; exact absurd h (by simp)
  | ok cmd =>
    rw [hp] at h
    have hc : (runCommand st cmd).1.count = st.count := by
      cases cmd <;> rfl
    simp only [WResult.ok.injEq, Prod.mk.injEq] at h
    rw [← h.1]
    simp [hc]

/-- C9 witness: the wrapping increment evaluated at the u8 maximum. -/
theorem c9_count_witness :
    (⟨0, [], true⟩ : AppState).count = ((⟨255, [], false⟩ : AppState).count + 1) % 256 :=
  c9_count ⟨255, [], false⟩ "QUIT".toList ⟨0, [], true⟩ "OK\n".toList (by decide)

/-- C10: `WrappedValue::from_str` trusts the declared length — `VAL 10 ab`
parses to a value with `len = 10` over a 2-byte buffer — and `into_inner` is
not total: it faults (`none`) whenever the declared length exceeds the
buffer's actual length. -/
theorem c10_trusts_length :
    WrappedValue.from_str "VAL 10 ab".toList = .ok ⟨some "ab".toList, 10⟩ ∧
    WrappedValue.into_inner ⟨some "ab".toList, 10⟩ = none ∧
    ∀ (w : WrappedValue) (b : Str), w.buf = some b → b.length < w.len →
      w.into_inner = none := by
  refine ⟨by decide, by decide, ?_⟩
  intro w b hb hl
  unfold WrappedValue.into_inner
  rw [hb]
  show (if w.len ≤ List.length b then some (List.take w.len b) else none) = none
  rw [if_neg (by omega)]

/-- C10 witness: the partiality of `into_inner` evaluated on a concrete
undersized buffer. -/
theorem c10_trusts_length_witness :
    WrappedValue.into_inner ⟨some "x".toList, 5⟩ = none :=
  c10_trusts_length.2.2 ⟨some "x".toList, 5⟩ "x".toList rfl (by decide)
